import Mathlib

/-!
The relay daemon of nagios-notify-irc (daemon.go).

A shallow embedding of `daemon.go`: the announce dispatch `Server.handle`, the
auto-join handler `Server.onConnect`, the startup check at the head of
`Server.setup` and the shutdown tail of `Server.setup`, with the properties the
specification states about them.

Side effects (messages sent through the chat client, joins, log lines) are
recorded as an explicit trace of `Effect`s in program order.
-/

set_option autoImplicit false

namespace Daemon

/-! ## Data model -/

/-- The announce command: `type Event struct` of daemon.go. -/
structure Event where
  /-- Either "*", "@", or a list of users. -/
  Pings : List String
  /-- Either "*" or a list of channels. -/
  Targets : List String
  Text : String
  deriving DecidableEq, Repr

/-- The configured network: the exported fields of `type Server struct`. -/
structure Server where
  ID : String
  Hostname : String
  Password : String
  Bind : String
  Port : Int
  TLS : Bool
  TLSSkipVerify : Bool
  Channels : List String
  DisableColors : Bool
  Nick : String
  Name : String
  User : String
  SASLUser : String
  SASLPass : String
  deriving DecidableEq, Repr

/-- Modelled from the spec: the global `conf` is declared outside daemon.go; these are
the fields daemon.go reads from it (the configured set and the global defaults). -/
structure Config where
  Servers : List Server
  DefaultPort : Int
  DefaultNick : String
  DefaultName : String
  DefaultUser : String
  SocketFile : String
  deriving DecidableEq, Repr

/-- Modelled from the spec: one entry of the chat library's member listing,
`listMembers(channel) -> []{name, isOperator}`. -/
structure Member where
  Nick : String
  IsOp : Bool
  deriving DecidableEq, Repr

/-- The chat library's user record; daemon.go reads only `Nick`. -/
structure User where
  Nick : String
  deriving DecidableEq, Repr

/-- Modelled from the spec: a channel of the live roster, with its current members in
roster order, each carrying its operator flag. -/
structure Channel where
  Name : String
  Members : List Member
  deriving DecidableEq, Repr

/-- The field `channel.UserList` of the chat library: the nicks of all current members. -/
def Channel.UserList (ch : Channel) : List String :=
  ch.Members.map Member.Nick

/-- The call `channel.Admins(c)` of the chat library: the members flagged as operator. -/
def Channel.Admins (ch : Channel) : List User :=
  (ch.Members.filter Member.IsOp).map fun m => { Nick := m.Nick }

/-- The read access daemon.go has to the chat client: the joined channel list
(`c.Channels()`) and the roster lookup (`c.LookupChannel`, `none` for Go's nil). -/
structure Client where
  Channels : List String
  LookupChannel : String → Option Channel

/-- Everything daemon.go does to the outside world, in program order. The log line
"requested send to unknown channel %q" is recorded by its argument. -/
inductive Effect where
  | Message (target text : String)
  | Join (channel : String)
  | JoinKey (channel key : String)
  | LogUnknownChannel (target : String)
  deriving DecidableEq, Repr

/-- The messages of a trace, as (target, text) pairs in sending order. -/
def sent : List Effect → List (String × String)
  | [] => []
  | Effect.Message t x :: rest => (t, x) :: sent rest
  | _ :: rest => sent rest

/-- The unknown-channel warnings of a trace, by channel name, in logging order. -/
def warnings : List Effect → List String
  | [] => []
  | Effect.LogUnknownChannel t :: rest => t :: warnings rest
  | _ :: rest => warnings rest

/-! ## The Go standard library functions daemon.go calls -/

namespace strings

/-- Go's `strings.Join(elems, sep)`. -/
def Join (elems : List String) (sep : String) : String :=
  sep.intercalate elems

/-- Go's `strings.Index(s, sep)` on character lists: the position of the first occurrence
of `sep` in `s`, `none` for Go's -1. -/
def Index : List Char → List Char → Option Nat
  | [], sep => if sep = [] then some 0 else none
  | c :: t, sep =>
    if sep.isPrefixOf (c :: t) then some 0 else (Index t sep).map (· + 1)

/-- The loop of Go's `genSplit` with `k` cuts still allowed: cut at the next separator
while one is left and `k > 0`; the last piece is the unsplit remainder. -/
def genSplitLoop (sep : List Char) : Nat → List Char → List (List Char)
  | 0, s => [s]
  | k + 1, s =>
    match Index s sep with
    | none => [s]
    | some m => s.take m :: genSplitLoop sep k (s.drop (m + sep.length))

/-- Go's `explode` with `n` pieces: single characters, the last piece the remainder. -/
def explodeLoop : Nat → List Char → List (List Char)
  | 0, _ => []
  | 1, s => [s]
  | k + 2, s => s.take 1 :: explodeLoop (k + 1) (s.drop 1)

/-- Go's `strings.SplitN(s, sep, n)`: `n = 0` gives no pieces, `n > 0` at most `n` pieces
(the last one the unsplit remainder), `n < 0` all pieces. A negative `n` is Go's
`Count(s, sep) + 1` pieces, reached here by allowing `len(s)` cuts. -/
def SplitN (s sep : String) (n : Int) : List String :=
  if n = 0 then []
  else if sep = "" then
    let l := s.data.length
    (explodeLoop (if n < 0 ∨ n > l then l else n.toNat) s.data).map String.mk
  else
    let cuts := if n < 0 ∨ n > s.data.length + 1 then s.data.length else n.toNat - 1
    (genSplitLoop sep.data cuts s.data).map String.mk

end strings

/-! ## Server.handle -/

/-- First loop of `Server.handle` (lines 167-175), from index position `Targets[i:]` with
the slice `targets` built so far: a "*" replaces it by `c.Channels()` and breaks. -/
def resolveTargets (c : Client) : List String → List String → List String
  | [], targets => targets
  | t :: rest, targets =>
    if t = "*" then c.Channels
    else resolveTargets c rest (targets ++ [t])

/-- Second loop of `Server.handle` (lines 177-189): the flags `(pingAll, pingOps)`; the
first entry that is "*" or "@" sets its flag and breaks. -/
def pingFlags : List String → Bool × Bool
  | [] => (false, false)
  | p :: rest =>
    if p = "*" then (true, false)
    else if p = "@" then (false, true)
    else pingFlags rest

/-- Inner loop of `Server.handle` (lines 202-205): collect the nicks of `users` in `ops`. -/
def collectOps : List User → List String → List String
  | [], ops => ops
  | u :: rest, ops => collectOps rest (ops ++ [u.Nick])

/-- Body of the third loop of `Server.handle` (lines 192-214) for `targets[i] = t`: the
effects of one iteration. -/
def handleChannel (c : Client) (e : Event) (pingAll pingOps : Bool) (t : String) :
    List Effect :=
  match c.LookupChannel t with
  | none => [Effect.LogUnknownChannel t]
  | some channel =>
    (if pingAll then
      [Effect.Message t (strings.Join channel.UserList " " ++ ":")]
    else if pingOps then
      let ops := collectOps channel.Admins []
      if ops.length > 0 then [Effect.Message t (strings.Join ops " " ++ ":")] else []
    else
      [Effect.Message t (strings.Join e.Pings " " ++ ":")])
    ++ [Effect.Message t e.Text]

/-- Third loop of `Server.handle` (lines 191-215) over the remaining targets, appending
each iteration's effects to the trace `out` so far. -/
def sendLoop (c : Client) (e : Event) (pingAll pingOps : Bool) :
    List String → List Effect → List Effect
  | [], out => out
  | t :: rest, out =>
    sendLoop c e pingAll pingOps rest (out ++ handleChannel c e pingAll pingOps t)

/-- The destination list `targets` that `Server.handle` resolves for a command. -/
def destinations (c : Client) (e : Event) : List String :=
  resolveTargets c e.Targets []

/-- The function `Server.handle(c, e)`: its trace of effects. -/
def handle (c : Client) (e : Event) : List Effect :=
  let targets := resolveTargets c e.Targets []
  let flags := pingFlags e.Pings
  sendLoop c e flags.1 flags.2 targets []

/-! ## Sample roster (the end-to-end scenario of the specification) -/

/-- Channel "#ops" with members alice and bob, bob an operator. -/
def opsChannel : Channel :=
  { Name := "#ops", Members := [⟨"alice", false⟩, ⟨"bob", true⟩] }

/-- Network "alpha": joined to "#ops" only. -/
def alphaClient : Client :=
  { Channels := ["#ops"]
    LookupChannel := fun n => if n = "#ops" then some opsChannel else none }

/-! ## Server.onConnect -/

/-- The loop of `Server.onConnect` (lines 219-226) over the remaining entries of
`s.Channels`, appending to the trace `out`: an entry whose `SplitN(entry, " ", 1)` has two
pieces is joined with key, every other entry is joined plainly. -/
def joinLoop : List String → List Effect → List Effect
  | [], out => out
  | entry :: rest, out =>
    match strings.SplitN entry " " 1 with
    | [name, key] => joinLoop rest (out ++ [Effect.JoinKey name key])
    | _ => joinLoop rest (out ++ [Effect.Join entry])

/-- The handler `Server.onConnect`: its trace of effects. -/
def onConnect (s : Server) : List Effect :=
  joinLoop s.Channels []

/-! ## Server.setup: startup -/

/-- The fields of the chat library's `girc.Config` that `Server.setup` fills in. -/
structure IrcConfig where
  Server : String
  ServerPass : String
  Port : Int
  Nick : String
  Name : String
  User : String
  Bind : String
  SSL : Bool
  GlobalFormat : Bool
  TLSServerName : String
  TLSInsecureSkipVerify : Bool
  SASL : Option (String × String)
  deriving DecidableEq, Repr

/-- Lines 92-106 of `Server.setup`: zero or empty fields take the global defaults. -/
def applyDefaults (conf : Config) (s : Server) : Server :=
  let s := if s.Port = 0 then { s with Port := conf.DefaultPort } else s
  let s := if s.Nick = "" then { s with Nick := conf.DefaultNick } else s
  let s := if s.Name = "" then { s with Name := conf.DefaultName } else s
  if s.User = "" then { s with User := conf.DefaultUser } else s

/-- Lines 110-126 of `Server.setup`: the client configuration. -/
def ircConfig (s : Server) : IrcConfig :=
  { Server := s.Hostname
    ServerPass := s.Password
    Port := s.Port
    Nick := s.Nick
    Name := s.Name
    User := s.User
    Bind := s.Bind
    SSL := s.TLS
    GlobalFormat := !s.DisableColors
    TLSServerName := s.Hostname
    TLSInsecureSkipVerify := s.TLSSkipVerify
    SASL := if s.SASLUser ≠ "" ∨ s.SASLPass ≠ "" then some (s.SASLUser, s.SASLPass)
            else none }

/-- Lines 84-128 of `Server.setup`, up to the creation of the client (`girc.New`): either
the startup error it returns, or the server with its defaults applied and the
configuration the client is created from. -/
def setupInit (conf : Config) (s : Server) : Except String (Server × IrcConfig) :=
  if s.ID = "" then
    Except.error "empty server id specified"
  else
    let s := applyDefaults conf s
    Except.ok (s, ircConfig s)

/-! ## Shutdown: the tail of Server.setup run by every worker -/

/-- Where a worker (the goroutine running `Server.setup`) stands. -/
inductive Phase where
  /-- In the select loop of lines 146-153. -/
  | running
  /-- Past the label `done:` (client closed, connect task awaited), in the loop of lines
  159-161 about to execute iteration `i`. -/
  | closing (i : Nat)
  /-- Returned from `Server.setup`. -/
  | returned
  deriving DecidableEq, Repr

/-- The daemon during shutdown: whether `close(done)` has been executed, for every
configured server the number of `close` calls executed on its `recv` queue, and every
worker's phase. A count of 2 is a second close of the same queue, on which the Go runtime
panics; the count records that it was executed. Commands taken from the queue while a
worker is running do not touch these fields and are left out. -/
structure World where
  done : Bool
  closes : List Nat
  workers : List Phase
  deriving DecidableEq, Repr

/-- One more `close` on queue `i`. -/
def closeRecv : List Nat → Nat → List Nat
  | [], _ => []
  | n :: rest, 0 => (n + 1) :: rest
  | n :: rest, i + 1 => n :: closeRecv rest i

/-- The state `Daemon.Execute` reaches after lines 25-29: `n` workers running, each with
a fresh open queue. -/
def World.start (n : Nat) : World :=
  { done := false, closes := List.replicate n 0, workers := List.replicate n Phase.running }

/-- Line 51 of `Daemon.Execute`: the shutdown broadcast `close(done)`. -/
def World.shutdown (w : World) : World :=
  { w with done := true }

/-- One step of worker `k`: a running worker that observes the broadcast leaves the
select loop; a worker in the closing loop executes `close(conf.Servers[i].recv)` for its
index `i < len(conf.Servers)` and advances, or returns when the loop is over. -/
def World.step (w : World) (k : Nat) : World :=
  match w.workers[k]? with
  | none => w
  | some Phase.running =>
    if w.done then { w with workers := w.workers.set k (Phase.closing 0) } else w
  | some (Phase.closing i) =>
    if i < w.closes.length then
      { w with closes := closeRecv w.closes i, workers := w.workers.set k (Phase.closing (i + 1)) }
    else
      { w with workers := w.workers.set k Phase.returned }
  | some Phase.returned => w

/-- Run the workers in the order of a schedule. -/
def World.run (w : World) (schedule : List Nat) : World :=
  schedule.foldl World.step w

/-- The states a daemon with a single worker can be in once shutdown is broadcast. -/
def World.SingleWorker (w : World) : Prop :=
  w.done = true ∧
    ((w.workers = [Phase.running] ∧ w.closes = [0])
      ∨ (w.workers = [Phase.closing 0] ∧ w.closes = [0])
      ∨ (w.workers = [Phase.closing 1] ∧ w.closes = [1])
      ∨ (w.workers = [Phase.returned] ∧ w.closes = [1]))

/-! ## Sample configuration -/

/-- A server "alpha" with one keyed channel entry and one plain entry. -/
def alphaServer : Server :=
  { ID := "alpha", Hostname := "irc.alpha.example", Password := "", Bind := "", Port := 0,
    TLS := true, TLSSkipVerify := false, Channels := ["#secret hunter2", "#pub"],
    DisableColors := false, Nick := "", Name := "", User := "", SASLUser := "",
    SASLPass := "" }

/-- A second server carrying the same ID "alpha". -/
def alphaTwin : Server :=
  { alphaServer with Hostname := "irc.beta.example", Channels := [] }

/-- A configured set in which two servers share the ID "alpha". -/
def twinConf : Config :=
  { Servers := [alphaServer, alphaTwin], DefaultPort := 6667, DefaultNick := "nagios",
    DefaultName := "nagios", DefaultUser := "nagios", SocketFile := "/tmp/notify.sock" }

/-! ## Loop lemmas -/

theorem sent_append (xs ys : List Effect) : sent (xs ++ ys) = sent xs ++ sent ys := by
  induction xs with
  | nil => rfl
  | cons x xs ih => cases x <;> simp [sent, ih]

theorem warnings_append (xs ys : List Effect) :
    warnings (xs ++ ys) = warnings xs ++ warnings ys := by
  induction xs with
  | nil => rfl
  | cons x xs ih => cases x <;> simp [warnings, ih]

theorem resolveTargets_eq (c : Client) (ts targets : List String) :
    resolveTargets c ts targets = if "*" ∈ ts then c.Channels else targets ++ ts := by
  induction ts generalizing targets with
  | nil => simp [resolveTargets]
  | cons t rest ih =>
    by_cases ht : t = "*"
    · simp [resolveTargets, ht]
    · have hne : ¬ "*" = t := fun h => ht h.symm
      simp [resolveTargets, ht, hne, ih]

theorem collectOps_eq (users : List User) (ops : List String) :
    collectOps users ops = ops ++ users.map User.Nick := by
  induction users generalizing ops with
  | nil => simp [collectOps]
  | cons u rest ih => simp [collectOps, ih]

theorem sendLoop_eq (c : Client) (e : Event) (pingAll pingOps : Bool)
    (ts : List String) (out : List Effect) :
    sendLoop c e pingAll pingOps ts out
      = out ++ ts.flatMap (handleChannel c e pingAll pingOps) := by
  induction ts generalizing out with
  | nil => simp [sendLoop]
  | cons t rest ih => simp [sendLoop, ih]

theorem handle_eq_flatMap (c : Client) (e : Event) :
    handle c e = (destinations c e).flatMap
      (handleChannel c e (pingFlags e.Pings).1 (pingFlags e.Pings).2) := by
  simp [handle, destinations, sendLoop_eq]

theorem pingFlags_star_first (pre post : List String) (hpre : "@" ∉ pre) :
    pingFlags (pre ++ "*" :: post) = (true, false) := by
  induction pre with
  | nil => simp [pingFlags]
  | cons p rest ih =>
    have hp : ¬ p = "@" := fun h => hpre (by simp [h])
    have hrest : "@" ∉ rest := fun h => hpre (by simp [h])
    by_cases hs : p = "*"
    · simp [pingFlags, hs]
    · simp [pingFlags, hs, hp, ih hrest]

theorem pingFlags_ops (pings : List String) (hops : "@" ∈ pings) (hstar : "*" ∉ pings) :
    pingFlags pings = (false, true) := by
  induction pings with
  | nil => simp at hops
  | cons p rest ih =>
    have hp : ¬ p = "*" := fun h => hstar (by simp [h])
    have hrest : "*" ∉ rest := fun h => hstar (by simp [h])
    by_cases ha : p = "@"
    · simp [pingFlags, ha]
    · have hmem : "@" ∈ rest := by
        rcases List.mem_cons.mp hops with h | h
        · exact absurd h.symm ha
        · exact h
      simp [pingFlags, hp, ha, ih hmem hrest]

theorem pingFlags_explicit (pings : List String) (hstar : "*" ∉ pings) (hops : "@" ∉ pings) :
    pingFlags pings = (false, false) := by
  induction pings with
  | nil => simp [pingFlags]
  | cons p rest ih =>
    have hp : ¬ p = "*" := fun h => hstar (by simp [h])
    have ha : ¬ p = "@" := fun h => hops (by simp [h])
    have h1 : "*" ∉ rest := fun h => hstar (by simp [h])
    have h2 : "@" ∉ rest := fun h => hops (by simp [h])
    simp [pingFlags, hp, ha, ih h1 h2]

theorem flatMap_congr_fun {α β : Type} (l : List α) (f g : α → List β)
    (h : ∀ a, f a = g a) : l.flatMap f = l.flatMap g := by
  have : f = g := funext h
  rw [this]

/-! ## Server.handle: destination list -/

/-- C5: the destination list `Server.handle` iterates over is the connection's joined
channel list when Targets contains "*" anywhere, and the literal Targets list (same
order, same multiplicity) otherwise. -/
theorem handle_destinations (c : Client) (e : Event) :
    handle c e
        = sendLoop c e (pingFlags e.Pings).1 (pingFlags e.Pings).2 (destinations c e) []
      ∧ destinations c e = if "*" ∈ e.Targets then c.Channels else e.Targets := by
  refine ⟨rfl, ?_⟩
  simp [destinations, resolveTargets_eq]

/-! ## Server.handle: ping modes -/

/-- C1 (as the code has it): when the first entry of Pings that is "*" or "@" is "*" (a
"*" with no "@" before it), every destination channel found in the roster gets the
nicks of all its current members joined by spaces and followed by ":", then the text;
a destination not in the roster gets only the warning. -/
theorem handle_everyone_first (c : Client) (e : Event) (pre post : List String)
    (hpings : e.Pings = pre ++ "*" :: post) (hpre : "@" ∉ pre) :
    handle c e = (destinations c e).flatMap fun t =>
      match c.LookupChannel t with
      | none => [Effect.LogUnknownChannel t]
      | some ch =>
        [Effect.Message t (strings.Join (ch.Members.map Member.Nick) " " ++ ":"),
         Effect.Message t e.Text] := by
  rw [handle_eq_flatMap, hpings, pingFlags_star_first pre post hpre]
  apply flatMap_congr_fun
  intro t
  unfold handleChannel
  cases c.LookupChannel t <;> simp [Channel.UserList]

/-- Witness of C1: Pings ["bob", "*", "@"] on the sample roster. -/
theorem handle_everyone_first_witness :
    "@" ∉ ["bob"] ∧
    handle alphaClient ⟨["bob", "*", "@"], ["*"], "hi"⟩
      = [Effect.Message "#ops" "alice bob:", Effect.Message "#ops" "hi"] :=
  ⟨by decide,
   (handle_everyone_first alphaClient ⟨["bob", "*", "@"], ["*"], "hi"⟩ ["bob"] ["@"]
      rfl (by decide)).trans (by decide)⟩

/-- C1 as stated fails: with Pings ["@", "*"] the list contains "*", "#ops" is in the
roster with members alice and bob, and the mention sent names the operator bob only. -/
theorem handle_everyone_after_ops_counterexample :
    "*" ∈ ["@", "*"] ∧
    alphaClient.LookupChannel "#ops" = some opsChannel ∧
    strings.Join opsChannel.UserList " " ++ ":" = "alice bob:" ∧
    handle alphaClient ⟨["@", "*"], ["#ops"], "hi"⟩
      = [Effect.Message "#ops" "bob:", Effect.Message "#ops" "hi"] := by
  decide

/-- C6: in operators mode (Pings has "@" and no "*") a destination channel found in the
roster with no member flagged as operator gets the text only; one with operators gets
the operators' nicks joined by spaces and followed by ":", then the text. -/
theorem handle_operators (c : Client) (e : Event)
    (hops : "@" ∈ e.Pings) (hstar : "*" ∉ e.Pings) :
    handle c e = (destinations c e).flatMap fun t =>
      match c.LookupChannel t with
      | none => [Effect.LogUnknownChannel t]
      | some ch =>
        if ∀ m ∈ ch.Members, m.IsOp = false then
          [Effect.Message t e.Text]
        else
          [Effect.Message t
             (strings.Join ((ch.Members.filter Member.IsOp).map Member.Nick) " " ++ ":"),
           Effect.Message t e.Text] := by
  rw [handle_eq_flatMap, pingFlags_ops e.Pings hops hstar]
  apply flatMap_congr_fun
  intro t
  unfold handleChannel
  cases hl : c.LookupChannel t with
  | none => rfl
  | some ch =>
    by_cases hno : ∀ m ∈ ch.Members, m.IsOp = false
    · have hf : ch.Members.filter Member.IsOp = [] := by
        rw [List.filter_eq_nil_iff]
        intro m hm
        simp [hno m hm]
      dsimp only
      rw [if_pos hno]
      simp [Channel.Admins, collectOps_eq, hf]
    · have hf : ch.Members.filter Member.IsOp ≠ [] := by
        intro h
        rw [List.filter_eq_nil_iff] at h
        apply hno
        intro m hm
        simpa using h m hm
      have hmap : List.map (User.Nick ∘ fun m : Member => ({ Nick := m.Nick } : User))
          (ch.Members.filter Member.IsOp)
            = List.map Member.Nick (ch.Members.filter Member.IsOp) := rfl
      dsimp only
      rw [if_neg hno]
      simp [Channel.Admins, collectOps_eq, hf, List.length_pos, hmap]

/-- Witness of C6: the end-to-end scenario of the specification, "bob:" then the text. -/
theorem handle_operators_witness :
    "@" ∈ ["@"] ∧ "*" ∉ ["@"] ∧
    handle alphaClient ⟨["@"], ["#ops"], "deploy starting"⟩
      = [Effect.Message "#ops" "bob:", Effect.Message "#ops" "deploy starting"] :=
  ⟨by decide, by decide,
   (handle_operators alphaClient ⟨["@"], ["#ops"], "deploy starting"⟩
      (by decide) (by decide)).trans (by decide)⟩

/-- The resolved destination list depends on the client through `c.Channels()` only. -/
theorem destinations_eq (c : Client) (e : Event) :
    destinations c e = if "*" ∈ e.Targets then c.Channels else e.Targets := by
  simp [destinations, resolveTargets_eq]

/-- C7: when Pings is an explicit name list (neither "*" nor "@" in it), every
destination channel found in the roster gets the Pings list joined by single spaces,
verbatim and in order, followed by ":", then the text; and the whole trace is the same
for any other roster with the same joined channels and the same known channel names,
whatever the members and operator flags of its channels. -/
theorem handle_explicit (c : Client) (e : Event)
    (hstar : "*" ∉ e.Pings) (hops : "@" ∉ e.Pings) :
    (handle c e = (destinations c e).flatMap fun t =>
      match c.LookupChannel t with
      | none => [Effect.LogUnknownChannel t]
      | some _ =>
        [Effect.Message t (strings.Join e.Pings " " ++ ":"), Effect.Message t e.Text])
    ∧ ∀ c2 : Client, c2.Channels = c.Channels →
        (∀ t, (c2.LookupChannel t).isSome = (c.LookupChannel t).isSome) →
        handle c2 e = handle c e := by
  have key : ∀ d : Client, handle d e = (destinations d e).flatMap fun t =>
      match d.LookupChannel t with
      | none => [Effect.LogUnknownChannel t]
      | some _ =>
        [Effect.Message t (strings.Join e.Pings " " ++ ":"), Effect.Message t e.Text] := by
    intro d
    rw [handle_eq_flatMap, pingFlags_explicit e.Pings hstar hops]
    apply flatMap_congr_fun
    intro t
    unfold handleChannel
    cases d.LookupChannel t <;> simp
  refine ⟨key c, ?_⟩
  intro c2 hch hknown
  rw [key c, key c2, destinations_eq, destinations_eq, hch]
  apply flatMap_congr_fun
  intro t
  have h := hknown t
  cases h2 : c2.LookupChannel t <;> cases h1 : c.LookupChannel t <;> simp [h1, h2] at h ⊢

/-- Witness of C7: two names, none of them a member of "#ops". -/
theorem handle_explicit_witness :
    "*" ∉ ["carol", "dave"] ∧ "@" ∉ ["carol", "dave"] ∧
    handle alphaClient ⟨["carol", "dave"], ["#ops"], "disk full"⟩
      = [Effect.Message "#ops" "carol dave:", Effect.Message "#ops" "disk full"] :=
  ⟨by decide, by decide,
   (handle_explicit alphaClient ⟨["carol", "dave"], ["#ops"], "disk full"⟩
      (by decide) (by decide)).1.trans (by decide)⟩

/-- C10: a command with an empty Pings list still sends a mention message to every
destination channel found in the roster, the one-character string ":", before the
text: two messages per channel. -/
theorem handle_no_pings (c : Client) (targets : List String) (text : String) :
    handle c ⟨[], targets, text⟩
      = (destinations c ⟨[], targets, text⟩).flatMap fun t =>
          match c.LookupChannel t with
          | none => [Effect.LogUnknownChannel t]
          | some _ => [Effect.Message t ":", Effect.Message t text] := by
  rw [handle_eq_flatMap]
  apply flatMap_congr_fun
  intro t
  unfold handleChannel
  cases c.LookupChannel t with
  | none => rfl
  | some ch =>
    have hj : strings.Join [] " " ++ ":" = ":" := by decide
    simp [pingFlags, hj]

/-! ## Server.handle: unknown channels and block structure -/

theorem sent_flatMap (f : String → List Effect) (ts : List String) :
    sent (ts.flatMap f) = ts.flatMap fun t => sent (f t) := by
  induction ts with
  | nil => rfl
  | cons t rest ih => simp [sent_append, ih]

theorem warnings_flatMap (f : String → List Effect) (ts : List String) :
    warnings (ts.flatMap f) = ts.flatMap fun t => warnings (f t) := by
  induction ts with
  | nil => rfl
  | cons t rest ih => simp [warnings_append, ih]

/-- The messages of one iteration: none for an unknown channel; for a known one the
text alone or a mention followed by the text, all addressed to the channel itself. -/
theorem sent_handleChannel (c : Client) (e : Event) (pingAll pingOps : Bool) (t : String) :
    match c.LookupChannel t with
    | none => sent (handleChannel c e pingAll pingOps t) = []
    | some _ =>
      sent (handleChannel c e pingAll pingOps t) = [(t, e.Text)]
      ∨ ∃ mention, sent (handleChannel c e pingAll pingOps t) = [(t, mention), (t, e.Text)] := by
  unfold handleChannel
  cases c.LookupChannel t with
  | none => simp [sent]
  | some ch =>
    dsimp only
    by_cases ha : pingAll = true
    · right
      exact ⟨strings.Join ch.UserList " " ++ ":", by simp [ha, sent]⟩
    · by_cases ho : pingOps = true
      · by_cases hl : (collectOps ch.Admins []).length > 0
        · right
          exact ⟨strings.Join (collectOps ch.Admins []) " " ++ ":",
            by simp only [ha, ho, hl, if_true, if_false]; simp [sent]⟩
        · left
          simp only [ha, ho, hl, if_true, if_false]
          simp [sent]
      · right
        exact ⟨strings.Join e.Pings " " ++ ":", by simp [ha, ho, sent]⟩

/-- One iteration depends on the command through Pings and Text, and on the client
through the roster lookup. -/
theorem handleChannel_congr (c c2 : Client) (e e2 : Event) (pingAll pingOps : Bool)
    (hl : c2.LookupChannel = c.LookupChannel) (hp : e2.Pings = e.Pings)
    (ht : e2.Text = e.Text) (t : String) :
    handleChannel c2 e2 pingAll pingOps t = handleChannel c e pingAll pingOps t := by
  unfold handleChannel
  rw [hl, hp, ht]

/-- C8: a destination entry `u` that the roster does not know gets no message and one
warning, and the messages sent are those of any command and roster that agree on Pings,
Text and roster lookup and whose destination list is the original one with that entry
removed; the warnings are those of that command with the one for `u` inserted. -/
theorem handle_unknown_channel (c : Client) (e : Event) (before after : List String)
    (u : String) (hdest : destinations c e = before ++ u :: after)
    (hunknown : c.LookupChannel u = none)
    (c2 : Client) (e2 : Event) (hl : c2.LookupChannel = c.LookupChannel)
    (hp : e2.Pings = e.Pings) (ht : e2.Text = e.Text)
    (hdest2 : destinations c2 e2 = before ++ after) :
    (∀ m ∈ sent (handle c e), m.1 ≠ u)
    ∧ sent (handle c e) = sent (handle c2 e2)
    ∧ ∃ w1 w2, warnings (handle c e) = w1 ++ u :: w2
        ∧ warnings (handle c2 e2) = w1 ++ w2 := by
  have hbody : handleChannel c2 e2 (pingFlags e2.Pings).1 (pingFlags e2.Pings).2
      = handleChannel c e (pingFlags e.Pings).1 (pingFlags e.Pings).2 := by
    funext t
    rw [hp]
    exact handleChannel_congr c c2 e e2 _ _ hl hp ht t
  have hu : handleChannel c e (pingFlags e.Pings).1 (pingFlags e.Pings).2 u
      = [Effect.LogUnknownChannel u] := by
    unfold handleChannel
    rw [hunknown]
  have h1 : handle c e
      = before.flatMap (handleChannel c e (pingFlags e.Pings).1 (pingFlags e.Pings).2)
        ++ Effect.LogUnknownChannel u
          :: after.flatMap (handleChannel c e (pingFlags e.Pings).1 (pingFlags e.Pings).2) := by
    rw [handle_eq_flatMap, hdest]
    simp [hu]
  have h2 : handle c2 e2
      = before.flatMap (handleChannel c e (pingFlags e.Pings).1 (pingFlags e.Pings).2)
        ++ after.flatMap (handleChannel c e (pingFlags e.Pings).1 (pingFlags e.Pings).2) := by
    rw [handle_eq_flatMap, hdest2, hbody]
    simp
  refine ⟨?_, ?_, ?_⟩
  · intro m hm heq
    rw [handle_eq_flatMap, sent_flatMap, List.mem_flatMap] at hm
    obtain ⟨t, _, hmt⟩ := hm
    have hs := sent_handleChannel c e (pingFlags e.Pings).1 (pingFlags e.Pings).2 t
    cases hlt : c.LookupChannel t with
    | none =>
      rw [hlt] at hs
      dsimp only at hs
      rw [hs] at hmt
      simp at hmt
    | some ch =>
      rw [hlt] at hs
      dsimp only at hs
      have hmt1 : m.1 = t := by
        rcases hs with hs | ⟨mention, hs⟩
        · rw [hs] at hmt
          simp at hmt
          rw [hmt]
        · rw [hs] at hmt
          simp at hmt
          rcases hmt with h | h <;> rw [h]
      rw [← hmt1, heq, hunknown] at hlt
      exact Option.noConfusion hlt
  · rw [h1, h2]
    simp [sent_append, sent]
  · refine ⟨warnings (before.flatMap
        (handleChannel c e (pingFlags e.Pings).1 (pingFlags e.Pings).2)),
      warnings (after.flatMap
        (handleChannel c e (pingFlags e.Pings).1 (pingFlags e.Pings).2)), ?_, ?_⟩
    · rw [h1]
      simp [warnings_append, warnings]
    · rw [h2]
      simp [warnings_append]

/-- Witness of C8: "#unknown" between two listings of "#ops". -/
theorem handle_unknown_channel_witness :
    destinations alphaClient ⟨["bob"], ["#ops", "#unknown", "#ops"], "hi"⟩
      = ["#ops"] ++ "#unknown" :: ["#ops"] ∧
    alphaClient.LookupChannel "#unknown" = none ∧
    sent (handle alphaClient ⟨["bob"], ["#ops", "#unknown", "#ops"], "hi"⟩)
      = sent (handle alphaClient ⟨["bob"], ["#ops", "#ops"], "hi"⟩) ∧
    warnings (handle alphaClient ⟨["bob"], ["#ops", "#unknown", "#ops"], "hi"⟩)
      = ["#unknown"] :=
  ⟨by decide, by decide,
   (handle_unknown_channel alphaClient ⟨["bob"], ["#ops", "#unknown", "#ops"], "hi"⟩
      ["#ops"] ["#ops"] "#unknown" (by decide) (by decide)
      alphaClient ⟨["bob"], ["#ops", "#ops"], "hi"⟩ rfl rfl rfl (by decide)).2.1,
   by decide⟩

/-- C9: the messages `Server.handle` sends are the per-channel blocks concatenated in
the order of the resolved destination list; the block of a channel the roster does not
know is empty, the block of a known channel is the text alone or one mention message
immediately followed by the text, every message of it addressed to that channel. -/
theorem handle_blocks (c : Client) (e : Event) :
    sent (handle c e)
        = (destinations c e).flatMap
            (fun t => sent (handleChannel c e (pingFlags e.Pings).1 (pingFlags e.Pings).2 t))
      ∧ ∀ t : String,
          match c.LookupChannel t with
          | none => sent (handleChannel c e (pingFlags e.Pings).1 (pingFlags e.Pings).2 t) = []
          | some _ =>
            sent (handleChannel c e (pingFlags e.Pings).1 (pingFlags e.Pings).2 t)
                = [(t, e.Text)]
            ∨ ∃ mention,
                sent (handleChannel c e (pingFlags e.Pings).1 (pingFlags e.Pings).2 t)
                  = [(t, mention), (t, e.Text)] := by
  refine ⟨?_, fun t => sent_handleChannel c e _ _ t⟩
  rw [handle_eq_flatMap, sent_flatMap]

/-! ## Server.onConnect -/

/-- With the limit 1 that `Server.onConnect` passes, `SplitN` never cuts. -/
theorem SplitN_one (s : String) : strings.SplitN s " " 1 = [s] := by
  have hsep : ¬ (" " : String) = "" := by decide
  have hlen : ¬ ((1 : Int) < 0 ∨ (1 : Int) > ((s.data.length : Int) + 1)) := by omega
  unfold strings.SplitN
  simp only [one_ne_zero, if_false, hsep]
  have hcuts : (if (1 : Int) < 0 ∨ (1 : Int) > ((s.data.length : Int) + 1)
      then s.data.length else (1 : Int).toNat - 1) = 0 := by
    rw [if_neg hlen]
    rfl
  simp only [hcuts, strings.genSplitLoop, List.map]

theorem joinLoop_eq (entries : List String) (out : List Effect) :
    joinLoop entries out = out ++ entries.map Effect.Join := by
  induction entries generalizing out with
  | nil => simp [joinLoop]
  | cons entry rest ih =>
    unfold joinLoop
    rw [SplitN_one]
    simp [ih]

/-- The handler issues a plain join of every configured entry as it is written, and
never a join with key. -/
theorem onConnect_plain_joins (s : Server) :
    onConnect s = s.Channels.map Effect.Join := by
  simp [onConnect, joinLoop_eq]

/-- C2 at the failing input: for the entry "#secret hunter2" the handler issues
`Join("#secret hunter2")`, not `JoinKey("#secret", "hunter2")`; the split into name and
key that the entry calls for is the one `SplitN` makes with limit 2. -/
theorem onConnect_keyed_entry :
    onConnect alphaServer = [Effect.Join "#secret hunter2", Effect.Join "#pub"]
    ∧ Effect.JoinKey "#secret" "hunter2" ∉ onConnect alphaServer
    ∧ strings.SplitN "#secret hunter2" " " 1 = ["#secret hunter2"]
    ∧ strings.SplitN "#secret hunter2" " " 2 = ["#secret", "hunter2"] := by
  decide

/-! ## Server.setup: startup check -/

/-- C4 as stated fails: in a configured set where two servers share the ID "alpha",
`Server.setup` of the first one returns no startup error. -/
theorem setup_duplicate_id_counterexample :
    twinConf.Servers = [alphaServer, alphaTwin]
    ∧ alphaServer ≠ alphaTwin
    ∧ alphaServer.ID = alphaTwin.ID
    ∧ (setupInit twinConf alphaServer).isOk = true
    ∧ (setupInit twinConf alphaTwin).isOk = true := by
  decide

/-- C4 (as the code has it): `Server.setup` returns its startup error, before any client
is created, exactly when the ID of the server is empty; with a non-empty ID it goes on
to create the client, whatever the IDs of the configured set. -/
theorem setup_refuses_iff_empty_id (conf : Config) (s : Server) :
    (setupInit conf s = Except.error "empty server id specified" ↔ s.ID = "")
    ∧ ((setupInit conf s).isOk = true ↔ s.ID ≠ "") := by
  unfold setupInit
  by_cases h : s.ID = "" <;> simp [h, Except.isOk, Except.toBool]

/-! ## Shutdown -/

/-- C3 at the failing inputs: with two or more workers, as soon as workers 0 and 1 have
each observed the broadcast and executed the first `close` of their loop, the queue of
server 0 has received two closes. -/
theorem shutdown_double_close (n : Nat) :
    ((World.start (n + 2)).shutdown.run [0, 0, 1, 1]).closes
      = 2 :: List.replicate (n + 1) 0 := by
  simp [World.start, World.shutdown, World.run, World.step, List.replicate_succ, closeRecv]

/-- With two workers that run their tails one after the other, every queue has received
two closes in the end. -/
theorem shutdown_two_workers_sequential :
    ((World.start 2).shutdown.run [0, 0, 0, 0, 1, 1, 1, 1]).closes = [2, 2]
    ∧ ((World.start 2).shutdown.run [0, 0, 0, 0, 1, 1, 1, 1]).workers
        = [Phase.returned, Phase.returned] := by
  decide

theorem singleWorker_step (w : World) (k : Nat) (h : w.SingleWorker) :
    (w.step k).SingleWorker := by
  obtain ⟨hd, hw⟩ := h
  cases k with
  | succ j =>
    have hnone : w.workers[j + 1]? = none := by
      rcases hw with ⟨h1, _⟩ | ⟨h1, _⟩ | ⟨h1, _⟩ | ⟨h1, _⟩ <;> simp [h1]
    have hstep : w.step (j + 1) = w := by
      unfold World.step
      rw [hnone]
    rw [hstep]
    exact ⟨hd, hw⟩
  | zero =>
    rcases hw with ⟨h1, h2⟩ | ⟨h1, h2⟩ | ⟨h1, h2⟩ | ⟨h1, h2⟩
    · refine ⟨by simp [World.step, h1, hd], Or.inr (Or.inl ?_)⟩
      simp [World.step, h1, h2, hd]
    · refine ⟨by simp [World.step, h1, h2, hd], Or.inr (Or.inr (Or.inl ?_))⟩
      simp [World.step, h1, h2, closeRecv]
    · refine ⟨by simp [World.step, h1, h2, hd], Or.inr (Or.inr (Or.inr ?_))⟩
      simp [World.step, h1, h2]
    · refine ⟨by simp [World.step, h1, hd], Or.inr (Or.inr (Or.inr ?_))⟩
      simp [World.step, h1, h2]

theorem singleWorker_run (schedule : List Nat) (w : World) (h : w.SingleWorker) :
    (w.run schedule).SingleWorker := by
  induction schedule generalizing w with
  | nil => exact h
  | cons k rest ih => exact ih (w.step k) (singleWorker_step w k h)

/-- With a single worker no schedule closes the queue twice. -/
theorem shutdown_single_worker (schedule : List Nat) :
    ∀ x ∈ ((World.start 1).shutdown.run schedule).closes, x ≤ 1 := by
  have h0 : (World.start 1).shutdown.SingleWorker :=
    ⟨rfl, Or.inl ⟨rfl, rfl⟩⟩
  obtain ⟨_, hw⟩ := singleWorker_run schedule _ h0
  intro x hx
  rcases hw with ⟨_, h2⟩ | ⟨_, h2⟩ | ⟨_, h2⟩ | ⟨_, h2⟩ <;> rw [h2] at hx <;> simp at hx <;> omega

end Daemon
